import Mathlib

/-!
Verification of the two core functions of `src/app.py`:
the deterministic experiment assignment (`assign_variant_and_placement`)
and the Wilson-score CTR aggregator (`wilson_interval`).

Integers are modelled as `ℕ`/`ℤ`, exact fractions as `ℚ`, and the real
arithmetic of the Wilson interval (including `math.sqrt`) over `ℝ`.
`math.sqrt` raises a `ValueError` on a negative argument; this failure
mode is modelled by `wilson_interval` returning `none`.
-/

namespace CtrApp

/-! Experiment configuration, verbatim from `src/app.py`. -/

def VARIANTS : List String := ["A", "B", "C"]

def PLACEMENTS : List String := ["P1", "P2", "P3"]

/-- Hex digits (values `0..15`, most significant first) of one byte,
as printed by `hexdigest` for that byte. -/
def byteHex (b : ℕ) : List ℕ := [b / 16, b % 16]

/-- Digit values of the hex string `hmac.new(...).hexdigest()` produces
for a digest given as a byte list: two hex digits per byte. -/
def hexdigest (digest : List ℕ) : List ℕ := (digest.map byteHex).flatten

/-- Value of `int(s, 16)` on a hex-digit string given by its digit values. -/
def parseHex (ds : List ℕ) : ℕ := ds.foldl (fun a d => 16 * a + d) 0

/-- Value of `int(digest[:8], 16)` in `assign_variant_and_placement`. -/
def bucketWord1 (digest : List ℕ) : ℕ := parseHex ((hexdigest digest).take 8)

/-- Value of `int(digest[8:16], 16)` in `assign_variant_and_placement`. -/
def bucketWord2 (digest : List ℕ) : ℕ := parseHex (((hexdigest digest).drop 8).take 8)

/-- Value of `bucket1 = int(digest[:8], 16) / 0xFFFFFFFF`. -/
def bucket1 (digest : List ℕ) : ℚ := (bucketWord1 digest : ℚ) / 0xFFFFFFFF

/-- Value of `bucket2 = int(digest[8:16], 16) / 0xFFFFFFFF`. -/
def bucket2 (digest : List ℕ) : ℚ := (bucketWord2 digest : ℚ) / 0xFFFFFFFF

/-- Python list indexing `xs[int(b * len(xs)) % len(xs)]`; out-of-range
indexing raises `IndexError`, modelled by `none`.  The truncation `int(...)`
coincides with the floor since the buckets are non-negative. -/
def pick (xs : List String) (b : ℚ) : Option String :=
  xs.get? ((⌊b * (xs.length : ℚ)⌋).toNat % xs.length)

/-- Body of `assign_variant_and_placement` after the HMAC digest is
computed: bucket extraction, normalisation and list selection. -/
def assign_variant_and_placement (digest : List ℕ) : Option (String × String) :=
  (pick VARIANTS (bucket1 digest)).bind fun v =>
    (pick PLACEMENTS (bucket2 digest)).bind fun p =>
      some (v, p)

/-- Process-wide configuration: the secret key and the keyed digest
function (HMAC-SHA256 from the Python standard library, treated as an
opaque deterministic function from key and message bytes to digest
bytes). -/
structure Config where
  hmacSha256 : List ℕ → List ℕ → List ℕ
  secret : List ℕ

/-- Full `assign_variant_and_placement(user_id)`: HMAC the identifier
bytes under the secret, then bucket. -/
def assignFull (cfg : Config) (user_id : List ℕ) : Option (String × String) :=
  assign_variant_and_placement (cfg.hmacSha256 cfg.secret user_id)

/-- Big-endian unsigned integer value of a byte list. -/
def beBytes (bs : List ℕ) : ℕ := bs.foldl (fun a b => 256 * a + b) 0

/-- Modelled from the spec: first 4 digest bytes interpreted as a
big-endian unsigned integer. -/
def specWord1 (digest : List ℕ) : ℕ := beBytes (digest.take 4)

/-- Modelled from the spec: next 4 digest bytes interpreted as a
big-endian unsigned integer. -/
def specWord2 (digest : List ℕ) : ℕ := beBytes ((digest.drop 4).take 4)

/-- Modelled from the spec: the reference assignment algorithm of spec
section 4.1 — split the digest into the first and next 4 bytes as
big-endian unsigned integers, normalise by the maximum representable
value of that width, and select `VARIANTS[floor(b1 * Nv) % Nv]` and
`PLACEMENTS[floor(b2 * Np) % Np]`. -/
def assignSpec (digest : List ℕ) : Option (String × String) :=
  (pick VARIANTS ((specWord1 digest : ℚ) / 0xFFFFFFFF)).bind fun v =>
    (pick PLACEMENTS ((specWord2 digest : ℚ) / 0xFFFFFFFF)).bind fun p =>
      some (v, p)

/-- Modelled from the spec: the reference algorithm applied to the
HMAC-SHA256 digest of the identifier under the secret key. -/
def assignSpecFull (cfg : Config) (user_id : List ℕ) : Option (String × String) :=
  assignSpec (cfg.hmacSha256 cfg.secret user_id)

/-! The CTR aggregator `wilson_interval`. -/

/-- The default confidence parameter `z = 1.96` of `wilson_interval`. -/
def z96 : ℚ := 1.96

/-- Value of `phat = k/n` in `wilson_interval`. -/
def phat (k n : ℕ) : ℚ := (k : ℚ) / n

/-- Argument of `math.sqrt` in `wilson_interval`:
`(phat*(1-phat) + z*z/(4*n)) / n`. -/
def sqrtArg (k n : ℕ) (z : ℚ) : ℚ :=
  (phat k n * (1 - phat k n) + z * z / (4 * n)) / n

/-- Value of `center = (phat + z*z/(2*n)) / denom` with
`denom = 1 + z**2/n`. -/
noncomputable def wCenter (k n : ℕ) (z : ℚ) : ℝ :=
  (((phat k n : ℚ) : ℝ) + (z : ℝ) * (z : ℝ) / (2 * (n : ℝ))) / (1 + (z : ℝ) ^ 2 / (n : ℝ))

/-- Value of `half = (z*math.sqrt((phat*(1-phat)+z*z/(4*n))/n)) / denom`. -/
noncomputable def wHalf (k n : ℕ) (z : ℚ) : ℝ :=
  (z : ℝ) * Real.sqrt ((sqrtArg k n z : ℚ) : ℝ) / (1 + (z : ℝ) ^ 2 / (n : ℝ))

/-- `wilson_interval(k, n, z)` from `src/app.py`.  Returns
`(0.0, 0.0, 0.0)` when `n == 0`; otherwise evaluates
`(phat, max(0.0, center-half), min(1.0, center+half))`.  When the
argument of `math.sqrt` is negative the Python call raises
`ValueError: math domain error`, modelled here by `none`. -/
noncomputable def wilson_interval (k n : ℕ) (z : ℚ) : Option (ℝ × ℝ × ℝ) :=
  if n = 0 then some (0, 0, 0)
  else if sqrtArg k n z < 0 then none
  else some (((phat k n : ℚ) : ℝ),
    max 0 (wCenter k n z - wHalf k n z),
    min 1 (wCenter k n z + wHalf k n z))

/-- First component (the point estimate `phat`) of a returned triple. -/
noncomputable def pointOf (o : Option (ℝ × ℝ × ℝ)) : ℝ := (o.getD (0, 0, 0)).1

/-- Second component (the lower bound) of a returned triple. -/
noncomputable def lowerOf (o : Option (ℝ × ℝ × ℝ)) : ℝ := (o.getD (0, 0, 0)).2.1

/-- Third component (the upper bound) of a returned triple. -/
noncomputable def upperOf (o : Option (ℝ × ℝ × ℝ)) : ℝ := (o.getD (0, 0, 0)).2.2

/-! Helper lemmas about hex encoding and bucket extraction. -/

lemma hexdigest_nil : hexdigest [] = [] := rfl

lemma hexdigest_cons (b : ℕ) (l : List ℕ) :
    hexdigest (b :: l) = b / 16 :: b % 16 :: hexdigest l := rfl

lemma foldl_hexdigest (l : List ℕ) :
    ∀ a : ℕ, (hexdigest l).foldl (fun x d => 16 * x + d) a
      = l.foldl (fun x b => 256 * x + b) a := by
  induction l with
  | nil => intro a; rfl
  | cons b l ih =>
    intro a
    rw [hexdigest_cons]
    simp only [List.foldl_cons]
    rw [ih]
    congr 1
    omega

/-- Parsing the hex digits of a byte list yields its big-endian value. -/
lemma parseHex_hexdigest (l : List ℕ) : parseHex (hexdigest l) = beBytes l :=
  foldl_hexdigest l 0

lemma hexdigest_take (l : List ℕ) :
    ∀ k : ℕ, (hexdigest l).take (2 * k) = hexdigest (l.take k) := by
  induction l with
  | nil => intro k; simp [hexdigest]
  | cons b l ih =>
    intro k
    cases k with
    | zero => rfl
    | succ k =>
      have h2 : 2 * (k + 1) = 2 * k + 1 + 1 := by ring
      rw [hexdigest_cons, h2, List.take_succ_cons, List.take_succ_cons, ih,
        List.take_succ_cons, hexdigest_cons]

lemma hexdigest_drop (l : List ℕ) :
    ∀ k : ℕ, (hexdigest l).drop (2 * k) = hexdigest (l.drop k) := by
  induction l with
  | nil => intro k; simp [hexdigest]
  | cons b l ih =>
    intro k
    cases k with
    | zero => rfl
    | succ k =>
      have h2 : 2 * (k + 1) = 2 * k + 1 + 1 := by ring
      rw [hexdigest_cons, h2, List.drop_succ_cons, List.drop_succ_cons, ih,
        List.drop_succ_cons]

/-- The first 8 hex digits of the digest encode its first 4 bytes. -/
lemma bucketWord1_eq_specWord1 (l : List ℕ) : bucketWord1 l = specWord1 l := by
  rw [bucketWord1, specWord1]
  have h := hexdigest_take l 4
  norm_num at h
  rw [h, parseHex_hexdigest]

/-- Hex digits 8..15 of the digest encode its bytes 4..7. -/
lemma bucketWord2_eq_specWord2 (l : List ℕ) : bucketWord2 l = specWord2 l := by
  rw [bucketWord2, specWord2]
  have hd := hexdigest_drop l 4
  norm_num at hd
  rw [hd]
  have ht := hexdigest_take (l.drop 4) 4
  norm_num at ht
  rw [ht, parseHex_hexdigest]

lemma parseHex_foldl_lt (ds : List ℕ) (h : ∀ d ∈ ds, d < 16) :
    ∀ a : ℕ, ds.foldl (fun x d => 16 * x + d) a < (a + 1) * 16 ^ ds.length := by
  induction ds with
  | nil => intro a; simp
  | cons d ds ih =>
    intro a
    simp only [List.foldl_cons, List.length_cons]
    have hd : d < 16 := h d (List.mem_cons_self d ds)
    have ih' := ih (fun x hx => h x (List.mem_cons_of_mem d hx)) (16 * a + d)
    have h2 : 16 * a + d + 1 ≤ (a + 1) * 16 := by omega
    calc ds.foldl (fun x d => 16 * x + d) (16 * a + d)
        < (16 * a + d + 1) * 16 ^ ds.length := ih'
      _ ≤ (a + 1) * 16 * 16 ^ ds.length := mul_le_mul_right' h2 _
      _ = (a + 1) * 16 ^ (ds.length + 1) := by ring

lemma parseHex_lt (ds : List ℕ) (h : ∀ d ∈ ds, d < 16) :
    parseHex ds < 16 ^ ds.length := by
  have hp := parseHex_foldl_lt ds h 0
  simpa [parseHex] using hp

lemma hexdigest_digits_lt (l : List ℕ) (h : ∀ b ∈ l, b < 256) :
    ∀ d ∈ hexdigest l, d < 16 := by
  intro d hd
  rw [hexdigest] at hd
  simp only [List.mem_flatten, List.mem_map] at hd
  obtain ⟨ds, ⟨b, hb, rfl⟩, hdm⟩ := hd
  have hb' := h b hb
  rw [byteHex] at hdm
  simp only [List.mem_cons, List.mem_singleton] at hdm
  rcases hdm with rfl | rfl | h'
  · omega
  · omega
  · simp at h'

lemma bucketWord1_le (l : List ℕ) (h : ∀ b ∈ l, b < 256) :
    bucketWord1 l ≤ 0xFFFFFFFF := by
  rw [bucketWord1]
  have hdig : ∀ d ∈ (hexdigest l).take 8, d < 16 := fun d hd =>
    hexdigest_digits_lt l h d (List.take_subset _ _ hd)
  have hlt := parseHex_lt _ hdig
  have hlen : ((hexdigest l).take 8).length ≤ 8 := by
    simp [List.length_take]
  have hpow : (16 : ℕ) ^ ((hexdigest l).take 8).length ≤ 16 ^ 8 :=
    Nat.pow_le_pow_right (by norm_num) hlen
  have h16 : (16 : ℕ) ^ 8 = 4294967296 := by norm_num
  omega

lemma bucketWord2_le (l : List ℕ) (h : ∀ b ∈ l, b < 256) :
    bucketWord2 l ≤ 0xFFFFFFFF := by
  rw [bucketWord2]
  have hdig : ∀ d ∈ ((hexdigest l).drop 8).take 8, d < 16 := fun d hd =>
    hexdigest_digits_lt l h d (List.drop_subset _ _ (List.take_subset _ _ hd))
  have hlt := parseHex_lt _ hdig
  have hlen : (((hexdigest l).drop 8).take 8).length ≤ 8 := by
    simp [List.length_take]
  have hpow : (16 : ℕ) ^ (((hexdigest l).drop 8).take 8).length ≤ 16 ^ 8 :=
    Nat.pow_le_pow_right (by norm_num) hlen
  have h16 : (16 : ℕ) ^ 8 = 4294967296 := by norm_num
  omega

/-- Any bucket index computed by `pick` on a non-empty list is in range,
so the list access succeeds and yields a list element. -/
lemma pick_mem (xs : List String) (b : ℚ) (hxs : xs ≠ []) :
    ∃ s, pick xs b = some s ∧ s ∈ xs := by
  rw [pick]
  have hlen : 0 < xs.length := List.length_pos.2 hxs
  have hidx : (⌊b * (xs.length : ℚ)⌋).toNat % xs.length < xs.length :=
    Nat.mod_lt _ hlen
  rw [List.get?_eq_get hidx]
  exact ⟨_, rfl, List.get_mem _ _ hidx⟩

/-! Claims about the assignment engine. -/

/-- C3: assignment is deterministic — for a fixed configuration (secret
key and digest function), equal identifiers always map to the same
(variant, placement) pair; the result depends only on those inputs, with
no stored state. -/
theorem C3_assign_deterministic (cfg : Config) (id1 id2 : List ℕ)
    (h : id1 = id2) : assignFull cfg id1 = assignFull cfg id2 := by
  rw [h]

/-- Witness for C3 at a concrete configuration and identifier. -/
theorem C3_assign_deterministic_witness :
    ([7, 7] : List ℕ) = [7, 7] ∧
      assignFull ⟨fun _ _ => List.replicate 32 171, [99]⟩ [7, 7]
        = assignFull ⟨fun _ _ => List.replicate 32 171, [99]⟩ [7, 7] :=
  ⟨rfl, C3_assign_deterministic ⟨fun _ _ => List.replicate 32 171, [99]⟩ [7, 7] [7, 7] rfl⟩

/-- C6 counterexample: on the digest whose bytes are all `0xFF` the
first 4-byte word is `0xFFFFFFFF`, so `bucket1 = 0xFFFFFFFF / 0xFFFFFFFF = 1`
and the buckets do not always lie in the half-open interval `[0, 1)`. -/
theorem C6_counterexample :
    ¬ (bucket1 (List.replicate 32 255) < 1 ∧ bucket2 (List.replicate 32 255) < 1) := by
  intro hc
  have h : bucketWord1 (List.replicate 32 255) = 4294967295 := by rfl
  rcases hc with ⟨h1, _⟩
  rw [bucket1, h] at h1
  norm_num at h1

/-- C6 amended: for every digest made of bytes, each normalized bucket
value lies in the closed interval `[0, 1]`; the value `1` is attained
(only) when the corresponding 4 digest bytes are all `0xFF`. -/
theorem C6_buckets_in_unit_interval (digest : List ℕ)
    (h : ∀ b ∈ digest, b < 256) :
    0 ≤ bucket1 digest ∧ bucket1 digest ≤ 1 ∧
      0 ≤ bucket2 digest ∧ bucket2 digest ≤ 1 := by
  have h1 := bucketWord1_le digest h
  have h2 := bucketWord2_le digest h
  refine ⟨?_, ?_, ?_, ?_⟩
  · rw [bucket1]; positivity
  · rw [bucket1, div_le_one (by norm_num)]
    exact_mod_cast h1
  · rw [bucket2]; positivity
  · rw [bucket2, div_le_one (by norm_num)]
    exact_mod_cast h2

/-- Witness for C6 (amended) at a concrete digest. -/
theorem C6_buckets_in_unit_interval_witness :
    0 ≤ bucket1 [0, 1, 2, 3, 255, 255, 255, 255] ∧
      bucket1 [0, 1, 2, 3, 255, 255, 255, 255] ≤ 1 ∧
      0 ≤ bucket2 [0, 1, 2, 3, 255, 255, 255, 255] ∧
      bucket2 [0, 1, 2, 3, 255, 255, 255, 255] ≤ 1 :=
  C6_buckets_in_unit_interval [0, 1, 2, 3, 255, 255, 255, 255] (by decide)

/-- C7: the implementation (which slices the first 8 and next 8
characters of the hex digest and parses them base 16) computes exactly
the reference algorithm of the spec (which reads the first 4 and next 4
digest bytes as big-endian unsigned integers), for every configuration
and identifier. -/
theorem C7_assign_matches_spec (cfg : Config) (user_id : List ℕ) :
    assignFull cfg user_id = assignSpecFull cfg user_id := by
  rw [assignFull, assignSpecFull, assign_variant_and_placement, assignSpec,
    bucket1, bucket2, bucketWord1_eq_specWord1, bucketWord2_eq_specWord2]

/-- C10: for every configuration and identifier the assignment returns a
pair, the variant being an element of `VARIANTS` and the placement an
element of `PLACEMENTS`; the trailing `% 3` keeps both list indexings in
range, so no index error is possible. -/
theorem C10_assign_total_in_range (cfg : Config) (user_id : List ℕ) :
    ∃ vp : String × String, assignFull cfg user_id = some vp ∧
      vp.1 ∈ VARIANTS ∧ vp.2 ∈ PLACEMENTS := by
  obtain ⟨v, hv, hvm⟩ :=
    pick_mem VARIANTS (bucket1 (cfg.hmacSha256 cfg.secret user_id)) (by simp [VARIANTS])
  obtain ⟨p, hp, hpm⟩ :=
    pick_mem PLACEMENTS (bucket2 (cfg.hmacSha256 cfg.secret user_id)) (by simp [PLACEMENTS])
  refine ⟨(v, p), ?_, hvm, hpm⟩
  rw [assignFull, assign_variant_and_placement, hv, hp]
  rfl

/-! Helper lemmas about the Wilson interval. -/

lemma z96_eq : z96 = 49 / 25 := by norm_num [z96]

lemma wilson_eval (k n : ℕ) (z : ℚ) (hn : n ≠ 0) (hA : ¬ sqrtArg k n z < 0) :
    wilson_interval k n z = some (((phat k n : ℚ) : ℝ),
      max 0 (wCenter k n z - wHalf k n z),
      min 1 (wCenter k n z + wHalf k n z)) := by
  rw [wilson_interval, if_neg hn, if_neg hA]

lemma phat_nonneg (k n : ℕ) : 0 ≤ phat k n := by
  rw [phat]; positivity

lemma phat_le_one (k n : ℕ) (hk : k ≤ n) : phat k n ≤ 1 := by
  rcases Nat.eq_zero_or_pos n with rfl | hn
  · simp [phat]
  · rw [phat, div_le_one (by exact_mod_cast hn)]
    exact_mod_cast hk

/-- For `clicks ≤ impressions` the argument of `math.sqrt` is
non-negative, for every `z`.  (When `n = 0` the expression is a `0/0`
degenerate value, also non-negative; the code never evaluates it then.) -/
lemma sqrtArg_nonneg (k n : ℕ) (z : ℚ) (hk : k ≤ n) : 0 ≤ sqrtArg k n z := by
  rw [sqrtArg]
  apply div_nonneg _ (by positivity)
  have h1 : 0 ≤ phat k n * (1 - phat k n) :=
    mul_nonneg (phat_nonneg k n) (by linarith [phat_le_one k n hk])
  have h2 : 0 ≤ z * z / (4 * (n : ℚ)) :=
    div_nonneg (mul_self_nonneg z) (by positivity)
  linarith

lemma wilson_ne_none_of_le (k n : ℕ) (hk : k ≤ n) :
    wilson_interval k n z96 ≠ none := by
  rcases eq_or_ne n 0 with rfl | hn
  · rw [wilson_interval]; simp
  · rw [wilson_eval k n z96 hn (not_lt.2 (sqrtArg_nonneg k n z96 hk))]
    simp

/-- Core inequality of the Wilson interval, stated over abstract reals:
the point estimate lies between `center - half` and `center + half`. -/
lemma wilson_key (N P Z s : ℝ) (hN : 0 < N) (hP0 : 0 ≤ P) (hP1 : P ≤ 1)
    (hZ : 0 < Z) (hs0 : 0 ≤ s)
    (hs2 : s ^ 2 = (P * (1 - P) + Z * Z / (4 * N)) / N) :
    (P + Z * Z / (2 * N)) / (1 + Z ^ 2 / N) - Z * s / (1 + Z ^ 2 / N) ≤ P ∧
      P ≤ (P + Z * Z / (2 * N)) / (1 + Z ^ 2 / N) + Z * s / (1 + Z ^ 2 / N) := by
  have hD : 0 < 1 + Z ^ 2 / N := by positivity
  have hNne : N ≠ 0 := ne_of_gt hN
  have hs2' : 4 * N ^ 2 * s ^ 2 = 4 * N * (P * (1 - P)) + Z * Z := by
    rw [hs2]; field_simp; ring
  have hp1 : 0 ≤ P * (1 - P) := mul_nonneg hP0 (by linarith)
  have habs2 : (Z * Z * (1 - 2 * P)) ^ 2 ≤ (2 * N * (Z * s)) ^ 2 := by
    nlinarith [hs2', hp1, sq_nonneg Z, hN.le,
      mul_nonneg (mul_nonneg hp1 hN.le) (sq_nonneg Z),
      mul_nonneg hp1 (mul_nonneg (sq_nonneg Z) (sq_nonneg Z))]
  have hrhs : 0 ≤ 2 * N * (Z * s) := by positivity
  have hkey1 : Z * Z * (1 - 2 * P) ≤ 2 * N * (Z * s) := by
    nlinarith [habs2, hrhs]
  have hkey2 : -(2 * N * (Z * s)) ≤ Z * Z * (1 - 2 * P) := by
    nlinarith [habs2, hrhs]
  have h2N : (0 : ℝ) < 2 * N := by linarith
  have he : Z * Z / (2 * N) - P * (Z ^ 2 / N) = Z * Z * (1 - 2 * P) / (2 * N) := by
    field_simp; ring
  constructor
  · rw [div_sub_div_same, div_le_iff₀ hD]
    have h1 : Z * Z * (1 - 2 * P) / (2 * N) ≤ Z * s := by
      rw [div_le_iff₀ h2N]
      nlinarith [hkey1]
    have hr : P * (1 + Z ^ 2 / N) = P + P * (Z ^ 2 / N) := by ring
    rw [hr]
    linarith [he, h1]
  · rw [div_add_div_same, le_div_iff₀ hD]
    have h2 : -(Z * s) ≤ Z * Z * (1 - 2 * P) / (2 * N) := by
      rw [le_div_iff₀ h2N]
      nlinarith [hkey2]
    have hr : P * (1 + Z ^ 2 / N) = P + P * (Z ^ 2 / N) := by ring
    rw [hr]
    linarith [he, h2]

/-- Bounds of the Wilson triple for `0 < n`, `k ≤ n` and positive `z`:
the call returns, and the returned components satisfy
`0 ≤ lower ≤ point ≤ upper ≤ 1`. -/
lemma wilson_bounds (k n : ℕ) (z : ℚ) (hn : 0 < n) (hk : k ≤ n) (hz : 0 < z) :
    wilson_interval k n z ≠ none ∧
      0 ≤ lowerOf (wilson_interval k n z) ∧
      lowerOf (wilson_interval k n z) ≤ pointOf (wilson_interval k n z) ∧
      pointOf (wilson_interval k n z) ≤ upperOf (wilson_interval k n z) ∧
      upperOf (wilson_interval k n z) ≤ 1 := by
  have hn0 : n ≠ 0 := Nat.pos_iff_ne_zero.mp hn
  have hA := sqrtArg_nonneg k n z hk
  have hw := wilson_eval k n z hn0 (not_lt.2 hA)
  have hNpos : (0 : ℝ) < (n : ℝ) := by exact_mod_cast hn
  have hP0 : (0 : ℝ) ≤ ((phat k n : ℚ) : ℝ) := by
    exact_mod_cast phat_nonneg k n
  have hP1 : ((phat k n : ℚ) : ℝ) ≤ 1 := by
    exact_mod_cast phat_le_one k n hk
  have hZ : (0 : ℝ) < ((z : ℚ) : ℝ) := by exact_mod_cast hz
  have hAr : ((sqrtArg k n z : ℚ) : ℝ)
      = (((phat k n : ℚ) : ℝ) * (1 - ((phat k n : ℚ) : ℝ))
          + ((z : ℚ) : ℝ) * ((z : ℚ) : ℝ) / (4 * (n : ℝ))) / (n : ℝ) := by
    rw [sqrtArg]
    push_cast
    ring
  have hA0 : (0 : ℝ) ≤ ((sqrtArg k n z : ℚ) : ℝ) := by exact_mod_cast hA
  have hs2 : Real.sqrt ((sqrtArg k n z : ℚ) : ℝ) ^ 2
      = (((phat k n : ℚ) : ℝ) * (1 - ((phat k n : ℚ) : ℝ))
          + ((z : ℚ) : ℝ) * ((z : ℚ) : ℝ) / (4 * (n : ℝ))) / (n : ℝ) := by
    rw [Real.sq_sqrt hA0, hAr]
  have hkey := wilson_key (n : ℝ) ((phat k n : ℚ) : ℝ) ((z : ℚ) : ℝ)
    (Real.sqrt ((sqrtArg k n z : ℚ) : ℝ)) hNpos hP0 hP1 hZ
    (Real.sqrt_nonneg _) hs2
  have hCH1 : wCenter k n z - wHalf k n z ≤ ((phat k n : ℚ) : ℝ) := by
    rw [wCenter, wHalf]; exact hkey.1
  have hCH2 : ((phat k n : ℚ) : ℝ) ≤ wCenter k n z + wHalf k n z := by
    rw [wCenter, wHalf]; exact hkey.2
  have hlow : lowerOf (wilson_interval k n z)
      = max 0 (wCenter k n z - wHalf k n z) := by rw [hw]; rfl
  have hpt : pointOf (wilson_interval k n z) = ((phat k n : ℚ) : ℝ) := by
    rw [hw]; rfl
  have hup : upperOf (wilson_interval k n z)
      = min 1 (wCenter k n z + wHalf k n z) := by rw [hw]; rfl
  refine ⟨by rw [hw]; simp, ?_, ?_, ?_, ?_⟩
  · rw [hlow]; exact le_max_left 0 _
  · rw [hlow, hpt]; exact max_le hP0 hCH1
  · rw [hpt, hup]; exact le_min hP1 hCH2
  · rw [hup]; exact min_le_left 1 _

/-! Claims about the Wilson aggregator. -/

/-- C1 counterexample: at `clicks = 2`, `impressions = 1`, `z = 1.96`
the argument of `math.sqrt` is negative (`-1.0396`), so `math.sqrt`
raises `ValueError` and the call does not evaluate to a triple
(modelled as `none`): the claim that every pair of non-negative
integers, including `clicks > impressions`, evaluates without an
exception is false. -/
theorem C1_counterexample :
    sqrtArg 2 1 z96 < 0 ∧ wilson_interval 2 1 z96 = none := by
  constructor
  · norm_num [sqrtArg, phat, z96]
  · rw [wilson_interval, if_neg (by norm_num), if_pos (by norm_num [sqrtArg, phat, z96])]

/-- C1 amended: for `clicks ≤ impressions` (and `z = 1.96`) the
argument of the square root is non-negative and
`wilson_interval` evaluates without raising an exception. -/
theorem C1_no_domain_error (k n : ℕ) (hk : k ≤ n) :
    0 ≤ sqrtArg k n z96 ∧ wilson_interval k n z96 ≠ none :=
  ⟨sqrtArg_nonneg k n z96 hk, wilson_ne_none_of_le k n hk⟩

/-- Witness for C1 (amended) at `clicks = 3`, `impressions = 7`. -/
theorem C1_no_domain_error_witness :
    0 ≤ sqrtArg 3 7 z96 ∧ wilson_interval 3 7 z96 ≠ none :=
  C1_no_domain_error 3 7 (by norm_num)

/-- C2: for `0 < impressions` and `clicks ≤ impressions`, with
`z = 1.96`, the call returns a triple whose components satisfy
`0 ≤ lowerBound ≤ pointEstimate ≤ upperBound ≤ 1`. -/
theorem C2_wilson_bounds (k n : ℕ) (hn : 0 < n) (hk : k ≤ n) :
    wilson_interval k n z96 ≠ none ∧
      0 ≤ lowerOf (wilson_interval k n z96) ∧
      lowerOf (wilson_interval k n z96) ≤ pointOf (wilson_interval k n z96) ∧
      pointOf (wilson_interval k n z96) ≤ upperOf (wilson_interval k n z96) ∧
      upperOf (wilson_interval k n z96) ≤ 1 :=
  wilson_bounds k n z96 hn hk (by norm_num [z96])

/-- Witness for C2 at `clicks = 5`, `impressions = 10`. -/
theorem C2_wilson_bounds_witness :
    wilson_interval 5 10 z96 ≠ none ∧
      0 ≤ lowerOf (wilson_interval 5 10 z96) ∧
      lowerOf (wilson_interval 5 10 z96) ≤ pointOf (wilson_interval 5 10 z96) ∧
      pointOf (wilson_interval 5 10 z96) ≤ upperOf (wilson_interval 5 10 z96) ∧
      upperOf (wilson_interval 5 10 z96) ≤ 1 :=
  C2_wilson_bounds 5 10 (by norm_num) (by norm_num)

/-- C4: `impressions = 0` yields exactly the triple `(0.0, 0.0, 0.0)`
for every `clicks` value and every `z`, a defined degenerate case
rather than an error. -/
theorem C4_zero_impressions (k : ℕ) (z : ℚ) :
    wilson_interval k 0 z = some (0, 0, 0) := by
  rw [wilson_interval, if_pos rfl]

/-- C5 counterexample: at `clicks = 3`, `impressions = 1` (a pair of
non-negative integers with no upper relation enforced) the call raises
instead of returning a triple, so no returned triple satisfying the
claimed bounds exists. -/
theorem C5_counterexample : wilson_interval 3 1 z96 = none := by
  rw [wilson_interval, if_neg (by norm_num), if_pos (by norm_num [sqrtArg, phat, z96])]

/-- C5 amended: on every pair on which the call returns a triple —
that is, `impressions = 0` (any `clicks`, the degenerate branch) or
`clicks ≤ impressions` — the returned triple satisfies
`pointEstimate ∈ [0,1]`, `lowerBound ∈ [0,1]`, `upperBound ∈ [0,1]` and
`lowerBound ≤ pointEstimate ≤ upperBound`.  The only excluded pairs are
`clicks > impressions ≥ 1`, where the call raises a math domain error
and returns no triple at all. -/
theorem C5_components_in_range (k n : ℕ) (hk : n = 0 ∨ k ≤ n) :
    wilson_interval k n z96 ≠ none ∧
      0 ≤ pointOf (wilson_interval k n z96) ∧
      pointOf (wilson_interval k n z96) ≤ 1 ∧
      0 ≤ lowerOf (wilson_interval k n z96) ∧
      lowerOf (wilson_interval k n z96) ≤ 1 ∧
      0 ≤ upperOf (wilson_interval k n z96) ∧
      upperOf (wilson_interval k n z96) ≤ 1 ∧
      lowerOf (wilson_interval k n z96) ≤ pointOf (wilson_interval k n z96) ∧
      pointOf (wilson_interval k n z96) ≤ upperOf (wilson_interval k n z96) := by
  rcases eq_or_ne n 0 with rfl | hn0
  · have h0 : wilson_interval k 0 z96 = some (0, 0, 0) := by
      rw [wilson_interval, if_pos rfl]
    rw [h0]
    refine ⟨by simp, ?_⟩
    norm_num [pointOf, lowerOf, upperOf]
  · have hk' : k ≤ n := hk.resolve_left hn0
    have hn : 0 < n := Nat.pos_of_ne_zero hn0
    obtain ⟨hne, h1, h2, h3, h4⟩ := wilson_bounds k n z96 hn hk' (by norm_num [z96])
    exact ⟨hne, le_trans h1 (le_of_eq rfl) |>.trans h2, le_trans h3 h4,
      h1, le_trans (le_trans h2 h3) h4, le_trans h1 (le_trans h2 h3), h4, h2, h3⟩

/-- Witness for C5 (amended) at `clicks = 4`, `impressions = 0`: a pair
with `clicks > impressions` on which the call does return, through the
degenerate branch. -/
theorem C5_components_in_range_witness :
    wilson_interval 4 0 z96 ≠ none ∧
      0 ≤ pointOf (wilson_interval 4 0 z96) ∧
      pointOf (wilson_interval 4 0 z96) ≤ 1 ∧
      0 ≤ lowerOf (wilson_interval 4 0 z96) ∧
      lowerOf (wilson_interval 4 0 z96) ≤ 1 ∧
      0 ≤ upperOf (wilson_interval 4 0 z96) ∧
      upperOf (wilson_interval 4 0 z96) ≤ 1 ∧
      lowerOf (wilson_interval 4 0 z96) ≤ pointOf (wilson_interval 4 0 z96) ∧
      pointOf (wilson_interval 4 0 z96) ≤ upperOf (wilson_interval 4 0 z96) :=
  C5_components_in_range 4 0 (Or.inl rfl)

/-- C8: for fixed `impressions > 0` and `z = 1.96`, whenever both calls
return (no domain error), the point estimate is monotone non-decreasing
in `clicks`. -/
theorem C8_point_estimate_monotone (c1 c2 n : ℕ) (hn : 0 < n) (hc : c1 ≤ c2)
    (h1 : wilson_interval c1 n z96 ≠ none)
    (h2 : wilson_interval c2 n z96 ≠ none) :
    pointOf (wilson_interval c1 n z96) ≤ pointOf (wilson_interval c2 n z96) := by
  have hn0 : n ≠ 0 := Nat.pos_iff_ne_zero.mp hn
  have hA1 : ¬ sqrtArg c1 n z96 < 0 := fun h =>
    h1 (by rw [wilson_interval, if_neg hn0, if_pos h])
  have hA2 : ¬ sqrtArg c2 n z96 < 0 := fun h =>
    h2 (by rw [wilson_interval, if_neg hn0, if_pos h])
  rw [wilson_eval c1 n z96 hn0 hA1, wilson_eval c2 n z96 hn0 hA2]
  show ((phat c1 n : ℚ) : ℝ) ≤ ((phat c2 n : ℚ) : ℝ)
  have hq : phat c1 n ≤ phat c2 n := by
    rw [phat, phat]
    gcongr
  exact_mod_cast hq

/-- Witness for C8 at `clicks = 1, 2` and `impressions = 10`. -/
theorem C8_point_estimate_monotone_witness :
    pointOf (wilson_interval 1 10 z96) ≤ pointOf (wilson_interval 2 10 z96) :=
  C8_point_estimate_monotone 1 2 10 (by norm_num) (by norm_num)
    (wilson_ne_none_of_le 1 10 (by norm_num))
    (wilson_ne_none_of_le 2 10 (by norm_num))

/-! Exact evaluation of the example `wilson_interval(10, 100, 1.96)`. -/

lemma sqrtArg_10_100 : sqrtArg 10 100 z96 = 24901 / 25000000 := by
  norm_num [sqrtArg, phat, z96]

lemma wilson_10_100_eval :
    wilson_interval 10 100 z96 = some (((phat 10 100 : ℚ) : ℝ),
      max 0 (wCenter 10 100 z96 - wHalf 10 100 z96),
      min 1 (wCenter 10 100 z96 + wHalf 10 100 z96)) :=
  wilson_eval 10 100 z96 (by norm_num) (by rw [sqrtArg_10_100]; norm_num)

lemma point_10_100 : pointOf (wilson_interval 10 100 z96) = 1 / 10 := by
  rw [wilson_10_100_eval]
  show ((phat 10 100 : ℚ) : ℝ) = 1 / 10
  norm_num [phat]

lemma z96_cast : ((z96 : ℚ) : ℝ) = 49 / 25 := by
  rw [z96_eq]; norm_num

lemma wCenter_10_100 : wCenter 10 100 z96 = 14901 / 129802 := by
  rw [wCenter, z96_cast]
  have hp : ((phat 10 100 : ℚ) : ℝ) = 1 / 10 := by norm_num [phat]
  rw [hp]
  norm_num

lemma wHalf_10_100 :
    wHalf 10 100 z96 = (122500 / 64901 : ℝ) * Real.sqrt (24901 / 25000000) := by
  rw [wHalf, z96_cast]
  have hA : ((sqrtArg 10 100 z96 : ℚ) : ℝ) = 24901 / 25000000 := by
    rw [sqrtArg_10_100]; norm_num
  rw [hA]
  have hn : ((100 : ℕ) : ℝ) = 100 := by norm_num
  rw [hn]
  have hd : (1 + (49 / 25 : ℝ) ^ 2 / 100) = 64901 / 62500 := by norm_num
  rw [hd]
  rw [div_div_eq_mul_div]
  ring

lemma sqrt_24901_lb : (493 / 15625 : ℝ) ≤ Real.sqrt (24901 / 25000000) :=
  (Real.le_sqrt (by norm_num) (by norm_num)).2 (by norm_num)

lemma sqrt_24901_ub : Real.sqrt (24901 / 25000000) ≤ 79 / 2500 :=
  (Real.sqrt_le_left (by norm_num)).2 (by norm_num)

lemma wHalf_10_100_bounds :
    (96628 / 1622525 : ℝ) ≤ wHalf 10 100 z96 ∧ wHalf 10 100 z96 ≤ 3871 / 64901 := by
  rw [wHalf_10_100]
  constructor
  · nlinarith [sqrt_24901_lb]
  · nlinarith [sqrt_24901_ub]

lemma lower_10_100_bounds :
    (7159 / 129802 : ℝ) ≤ lowerOf (wilson_interval 10 100 z96) ∧
      lowerOf (wilson_interval 10 100 z96) ≤ 179269 / 3245050 := by
  obtain ⟨hH1, hH2⟩ := wHalf_10_100_bounds
  have hl : lowerOf (wilson_interval 10 100 z96)
      = max 0 (wCenter 10 100 z96 - wHalf 10 100 z96) := by
    rw [wilson_10_100_eval]; rfl
  have hx1 : (7159 / 129802 : ℝ) ≤ wCenter 10 100 z96 - wHalf 10 100 z96 := by
    rw [wCenter_10_100]; linarith
  have hx2 : wCenter 10 100 z96 - wHalf 10 100 z96 ≤ (179269 / 3245050 : ℝ) := by
    rw [wCenter_10_100]; linarith
  rw [hl, max_eq_right (by linarith : (0 : ℝ) ≤ wCenter 10 100 z96 - wHalf 10 100 z96)]
  exact ⟨hx1, hx2⟩

lemma upper_10_100_bounds :
    (565781 / 3245050 : ℝ) ≤ upperOf (wilson_interval 10 100 z96) ∧
      upperOf (wilson_interval 10 100 z96) ≤ 566075 / 3245050 := by
  obtain ⟨hH1, hH2⟩ := wHalf_10_100_bounds
  have hu : upperOf (wilson_interval 10 100 z96)
      = min 1 (wCenter 10 100 z96 + wHalf 10 100 z96) := by
    rw [wilson_10_100_eval]; rfl
  have hx1 : (565781 / 3245050 : ℝ) ≤ wCenter 10 100 z96 + wHalf 10 100 z96 := by
    rw [wCenter_10_100]; linarith
  have hx2 : wCenter 10 100 z96 + wHalf 10 100 z96 ≤ (566075 / 3245050 : ℝ) := by
    rw [wCenter_10_100]; linarith
  rw [hu, min_eq_right (by linarith : wCenter 10 100 z96 + wHalf 10 100 z96 ≤ 1)]
  exact ⟨hx1, hx2⟩

/-- C9 counterexample: for `wilson_interval(10, 100, 1.96)` the actual
lower bound is `0.05523...`, not `0.0554` to 4 decimal places (and the
upper bound is `0.17437...`, not `0.1737`): the claimed example values
are off. -/
theorem C9_counterexample :
    ¬ (|lowerOf (wilson_interval 10 100 z96) - 0.0554| ≤ 0.00005 ∧
        |upperOf (wilson_interval 10 100 z96) - 0.1737| ≤ 0.00005) := by
  intro hc
  obtain ⟨h1, _⟩ := hc
  rw [abs_le] at h1
  have h2 := lower_10_100_bounds.2
  have hlt : (179269 / 3245050 : ℝ) < 0.0554 - 0.00005 := by norm_num
  linarith [h1.1]

/-- C9 amended: `wilson_interval(10, 100, 1.96)` returns
`pointEstimate = 0.10` exactly, `lowerBound ≈ 0.0552` and
`upperBound ≈ 0.1744` (both to 4 decimal places, standard Wilson
formula). -/
theorem C9_example_values :
    pointOf (wilson_interval 10 100 z96) = 0.1 ∧
      |lowerOf (wilson_interval 10 100 z96) - 0.0552| ≤ 0.00005 ∧
      |upperOf (wilson_interval 10 100 z96) - 0.1744| ≤ 0.00005 := by
  refine ⟨by rw [point_10_100]; norm_num, ?_, ?_⟩
  · obtain ⟨h1, h2⟩ := lower_10_100_bounds
    rw [abs_le]
    constructor <;> linarith
  · obtain ⟨h1, h2⟩ := upper_10_100_bounds
    rw [abs_le]
    constructor <;> linarith

end CtrApp
